import Mathlib

/-!
Shallow embedding of the SR-AIbridge harmony-gate engine.

The repository contains six near-identical "harmony gate" instantiations
(ai_safety_gpu.rs, ground segment, oilgas_edge.rs, resonance_crypto.rs,
resonance_finance_hsm.rs, scada_nuclear_monitor.rs).  Every one of them:
  * aggregates weighted health scores into a confidence scalar `mu`
    by `calculate_mu` (identical code in all six contexts),
  * ANDs a set of hard boolean gates into `ch`,
  * decides GO iff `mu >= HARMONY_THRESHOLD && ch`.
Rust `f64` arithmetic is modelled over the reals; `s.clamp(lo, hi)` is
`min (max s lo) hi`.  Side effects of the Gate Evaluator (the autoheal
recovery hook and the fault logger) are modelled as an explicit ordered
effect list returned next to the decision.
-/

noncomputable section

/-- `HARMONY_THRESHOLD`, the GO threshold, identical in all six files. -/
def HARMONY_THRESHOLD : ℝ := 0.9995

/-- `MIN_SCORE`, the clamp floor, identical in all six files. -/
def MIN_SCORE : ℝ := 1e-12

/-- Rust `x.clamp(lo, hi)` (for `lo ≤ hi`): clip `x` into `[lo, hi]`. -/
def fclamp (x lo hi : ℝ) : ℝ := min (max x lo) hi

/-- One accumulation step of `calculate_mu`:
`w * s.clamp(MIN_SCORE, 1.0).ln()` for the pair `p = (w, s)`. -/
def signalTerm (p : ℝ × ℝ) : ℝ := p.1 * Real.log (fclamp p.2 MIN_SCORE 1)

/-- The Aggregator `calculate_mu` shared verbatim by all six context types:
`self.weights.iter().zip(self.scores.iter())`, accumulate
`w * s.clamp(MIN_SCORE, 1.0).ln()` into `log_sum` starting from `0.0`,
return `log_sum.exp()`. -/
def calculate_mu (weights scores : List ℝ) : ℝ :=
  Real.exp ((weights.zip scores).foldl (fun log_sum p => log_sum + signalTerm p) 0)

/-- `DeployDecision` from ai_safety_gpu.rs. -/
inductive DeployDecision
  | DEPLOY_GO
  | DEPLOY_HALT

/-- `TxDecision` from resonance_crypto.rs (also resonance_finance_hsm.rs). -/
inductive TxDecision
  | TX_GO
  | TX_HALT

/-- Observable side effects the gate code can fire on a HALT path:
`trigger_autoheal()` (the Recovery Hook), `log_harmony_fault(mu, ch)`
(the Fault Logger), and the oil-gas safe-state action `hold_choke()`. -/
inductive Effect
  | autoheal
  | logFault (mu : ℝ) (ch : Bool)
  | holdChoke

/-- `evaluate_ai_harmony` from ai_safety_gpu.rs, with its side effects
reified as an ordered list: on the GO branch nothing fires; on the HALT
branch `trigger_autoheal()` then `log_harmony_fault(mu, ch)` fire before
the decision is returned. -/
def evaluate_ai_harmony (mu : ℝ) (ch : Bool) : DeployDecision × List Effect :=
  if HARMONY_THRESHOLD ≤ mu ∧ ch = true then
    (DeployDecision.DEPLOY_GO, [])
  else
    (DeployDecision.DEPLOY_HALT, [Effect.autoheal, Effect.logFault mu ch])

/-- `evaluate_crypto_harmony` from resonance_crypto.rs, side effects
reified in order exactly as in `evaluate_ai_harmony`. -/
def evaluate_crypto_harmony (mu : ℝ) (ch : Bool) : TxDecision × List Effect :=
  if HARMONY_THRESHOLD ≤ mu ∧ ch = true then
    (TxDecision.TX_GO, [])
  else
    (TxDecision.TX_HALT, [Effect.autoheal, Effect.logFault mu ch])

/-- `evaluate_finance_harmony` from resonance_finance_hsm.rs, side
effects reified in order exactly as in `evaluate_ai_harmony`; its
`TxDecision` enum is the same two-variant type as the crypto one. -/
def evaluate_finance_harmony (mu : ℝ) (ch : Bool) : TxDecision × List Effect :=
  if HARMONY_THRESHOLD ≤ mu ∧ ch = true then
    (TxDecision.TX_GO, [])
  else
    (TxDecision.TX_HALT, [Effect.autoheal, Effect.logFault mu ch])

/-- The decision step inlined in scada_nuclear_monitor.rs `main`:
`match (mu >= HARMONY_THRESHOLD && ch)` — `true` prints CONTROL GO,
`false` prints CONTROL HALT.  Only the scrutinee boolean is modelled. -/
def nuclear_go (mu : ℝ) (ch : Bool) : Bool :=
  decide (HARMONY_THRESHOLD ≤ mu) && ch

/-- The scada_nuclear_monitor.rs decision step with its side effects
reified: both match arms only print a status line, so neither arm fires
a recovery hook, a fault logger, or any safe-state action — the effect
list is empty on GO and on HALT alike. -/
def nuclear_decide (mu : ℝ) (ch : Bool) : Bool × List Effect :=
  (nuclear_go mu ch, [])

/-- The decision step inlined in the ground_segment_monitor.rs `main`
(the NASA ground-segment file appended inside src/ai_safety_gpu.rs):
`match (mu >= HARMONY_THRESHOLD && ch)` with println-only arms, so as in
`nuclear_decide` no recovery hook, fault logger, or safe-state action
fires on either arm. -/
def ground_decide (mu : ℝ) (ch : Bool) : Bool × List Effect :=
  (decide (HARMONY_THRESHOLD ≤ mu) && ch, [])

/-- The decision step inlined in oilgas_edge.rs `main`: on `true` it only
prints GO; on `false` it prints HALT and awaits `hold_choke()`.  No
autoheal and no fault logging occur in this instantiation; the returned
effect list records exactly what the HALT arm fires. -/
def oilgas_decide (mu : ℝ) (ch : Bool) : Bool × List Effect :=
  if HARMONY_THRESHOLD ≤ mu ∧ ch = true then
    (true, [])
  else
    (false, [Effect.holdChoke])

/-- `AISafetyContext` from ai_safety_gpu.rs. -/
structure AISafetyContext where
  scores : List ℝ
  weights : List ℝ

/-- Method `AISafetyContext::calculate_mu`, the per-file copy of the
Aggregator applied to the context's own fields. -/
def AISafetyContext.calculate_mu (ctx : AISafetyContext) : ℝ :=
  Real.exp ((ctx.weights.zip ctx.scores).foldl
    (fun log_sum p => log_sum + signalTerm p) 0)

/-- The `ctx` constructed before the loop in ai_safety_gpu.rs `main`. -/
def ai_start_ctx : AISafetyContext :=
  ⟨[0.98, 0.97, 1.0, 0.96, 0.99], [0.30, 0.25, 0.20, 0.15, 0.10]⟩

/-- One iteration of the ai_safety_gpu.rs `main` loop body.  The freshly
gathered telemetry readings and the hard-gate result are parameters
(external collaborators).  Mirroring the source: the fresh readings are
bound to a local `scores` vector, `mu` is computed as
`ctx.calculate_mu()` (the Rust loop never uses the fresh vector), then
`evaluate_ai_harmony(mu, ch)` runs.  Returns the `mu` fed to the Gate
Evaluator, the decision, and the fired effects. -/
def ai_tick (ctx : AISafetyContext) (freshScores : List ℝ) (ch : Bool) :
    ℝ × DeployDecision × List Effect :=
  let _scores := freshScores
  let mu := ctx.calculate_mu
  let d := evaluate_ai_harmony mu ch
  (mu, d.1, d.2)

/-- `NuclearContext` from scada_nuclear_monitor.rs. -/
structure NuclearContext where
  scores : List ℝ
  weights : List ℝ

/-- Method `NuclearContext::calculate_mu`, the per-file copy of the
Aggregator applied to the context's own fields. -/
def NuclearContext.calculate_mu (ctx : NuclearContext) : ℝ :=
  Real.exp ((ctx.weights.zip ctx.scores).foldl
    (fun log_sum p => log_sum + signalTerm p) 0)

/-- The `ctx` constructed before the loop in scada_nuclear_monitor.rs. -/
def nuclear_start_ctx : NuclearContext :=
  ⟨[0.98, 0.97, 1.0, 0.96, 0.99], [0.30, 0.25, 0.20, 0.15, 0.10]⟩

/-- One iteration of the scada_nuclear_monitor.rs `main` loop body,
mirroring the source exactly as `ai_tick` does: the fresh readings are
bound and then ignored, `mu` comes from the context's fixed fields.
Returns the `mu` fed to the match and the GO/HALT boolean. -/
def nuclear_tick (ctx : NuclearContext) (freshScores : List ℝ) (ch : Bool) :
    ℝ × Bool :=
  let _scores := freshScores
  let mu := ctx.calculate_mu
  (mu, nuclear_go mu ch)

/- ### Helper lemmas about the Aggregator -/

theorem foldl_add_signalTerm (l : List (ℝ × ℝ)) (c : ℝ) :
    l.foldl (fun acc p => acc + signalTerm p) c = c + (l.map signalTerm).sum := by
  induction l generalizing c with
  | nil => simp
  | cons p l ih =>
    simp only [List.foldl_cons, List.map_cons, List.sum_cons, ih]
    ring

theorem calculate_mu_eq (w s : List ℝ) :
    calculate_mu w s = Real.exp (((w.zip s).map signalTerm).sum) := by
  simp [calculate_mu, foldl_add_signalTerm]

theorem MIN_SCORE_pos : 0 < MIN_SCORE := by norm_num [MIN_SCORE]

theorem fclamp_pos (x : ℝ) : 0 < fclamp x MIN_SCORE 1 := by
  have h1 : MIN_SCORE ≤ max x MIN_SCORE := le_max_right x MIN_SCORE
  have : 0 < min (max x MIN_SCORE) 1 :=
    lt_min (lt_of_lt_of_le MIN_SCORE_pos h1) one_pos
  simpa [fclamp] using this

theorem fclamp_le_one (x : ℝ) : fclamp x MIN_SCORE 1 ≤ 1 := min_le_right _ _

theorem signalTerm_nonpos (p : ℝ × ℝ) (hw : 0 ≤ p.1) : signalTerm p ≤ 0 :=
  mul_nonpos_iff.mpr
    (Or.inl ⟨hw, Real.log_nonpos (le_of_lt (fclamp_pos p.2)) (fclamp_le_one p.2)⟩)

theorem list_sum_nonpos (l : List ℝ) (h : ∀ x ∈ l, x ≤ 0) : l.sum ≤ 0 := by
  induction l with
  | nil => simp
  | cons x xs ih =>
    simp only [List.sum_cons]
    exact add_nonpos (h x (List.mem_cons_self x xs))
      (ih fun y hy => h y (List.mem_cons_of_mem x hy))

theorem list_sum_eq_zero (l : List ℝ) (h : ∀ x ∈ l, x = 0) : l.sum = 0 := by
  induction l with
  | nil => simp
  | cons x xs ih =>
    simp only [List.sum_cons, h x (List.mem_cons_self x xs),
      ih fun y hy => h y (List.mem_cons_of_mem x hy), add_zero]

/- ### Claim theorems -/

/-- C1: the spec says the `mu` fed to the Gate Evaluator each tick is
computed from the freshly gathered signal scores of that tick.  The code
computes it from the context's fixed startup scores: the fresh vector is
bound and never used.  At the failing input (fresh scores all 0.0, a
catastrophic reading) the tick's `mu` equals the startup aggregate and
coincides with the `mu` of a perfect all-1.0 reading; in general the
fresh readings never influence `mu` in either cited instantiation. -/
theorem mu_computed_from_stale_scores :
    (ai_tick ai_start_ctx [0, 0, 0, 0, 0] true).1 = ai_start_ctx.calculate_mu ∧
    (ai_tick ai_start_ctx [0, 0, 0, 0, 0] true).1 =
      (ai_tick ai_start_ctx [1, 1, 1, 1, 1] true).1 ∧
    (∀ fresh fresh' : List ℝ, ∀ ch ch' : Bool,
      (ai_tick ai_start_ctx fresh ch).1 = (ai_tick ai_start_ctx fresh' ch').1) ∧
    (∀ fresh fresh' : List ℝ, ∀ ch ch' : Bool,
      (nuclear_tick nuclear_start_ctx fresh ch).1 =
        (nuclear_tick nuclear_start_ctx fresh' ch').1) := by
  refine ⟨rfl, rfl, fun _ _ _ _ => rfl, fun _ _ _ _ => rfl⟩

/-- C2: the Gate Evaluator returns GO iff `mu >= 0.9995` and `ch` is true,
and HALT in every other case, in each cited instantiation
(`evaluate_ai_harmony`, `evaluate_crypto_harmony`, and the inlined
scada_nuclear_monitor.rs condition). -/
theorem go_iff_threshold_and_ch (mu : ℝ) (ch : Bool) :
    ((evaluate_ai_harmony mu ch).1 = DeployDecision.DEPLOY_GO ↔
      ((0.9995 : ℝ) ≤ mu ∧ ch = true)) ∧
    ((evaluate_ai_harmony mu ch).1 = DeployDecision.DEPLOY_HALT ↔
      ¬ ((0.9995 : ℝ) ≤ mu ∧ ch = true)) ∧
    ((evaluate_crypto_harmony mu ch).1 = TxDecision.TX_GO ↔
      ((0.9995 : ℝ) ≤ mu ∧ ch = true)) ∧
    ((evaluate_crypto_harmony mu ch).1 = TxDecision.TX_HALT ↔
      ¬ ((0.9995 : ℝ) ≤ mu ∧ ch = true)) ∧
    (nuclear_go mu ch = true ↔ ((0.9995 : ℝ) ≤ mu ∧ ch = true)) := by
  by_cases hmu : (0.9995 : ℝ) ≤ mu <;> by_cases hch : ch = true <;>
    simp [evaluate_ai_harmony, evaluate_crypto_harmony, nuclear_go,
      HARMONY_THRESHOLD, hmu, hch]

/-- C3 counterexample: the claim quantifies over every instantiation, but
in oilgas_edge.rs a HALT decision fires only the safe-state action
`hold_choke()`: at the concrete input `mu = 0`, `ch = false` the decision
is HALT and neither the Fault Logger nor the Recovery Hook is invoked. -/
theorem oilgas_halt_without_fault_record :
    (oilgas_decide 0 false).1 = false ∧
    (oilgas_decide 0 false).2 = [Effect.holdChoke] ∧
    Effect.logFault 0 false ∉ (oilgas_decide 0 false).2 ∧
    Effect.autoheal ∉ (oilgas_decide 0 false).2 := by
  simp [oilgas_decide]

/-- C3 amended: in the three instantiations whose Gate Evaluator is an
explicit function (ai_safety_gpu.rs, resonance_crypto.rs,
resonance_finance_hsm.rs), whenever HALT is returned the Recovery Hook
and then the Fault Logger with the same `(mu, ch)` fire, each exactly
once, before the decision is returned.  The other three instantiations
produce HALT with neither invoked: on every HALT input the oil-gas
decision step fires exactly the `hold_choke()` safe-state action and the
nuclear and ground decision steps fire no effect at all. -/
theorem halt_invokes_recovery_and_logger_once (mu : ℝ) (ch : Bool)
    (h : (evaluate_crypto_harmony mu ch).1 = TxDecision.TX_HALT) :
    (evaluate_crypto_harmony mu ch).2 = [Effect.autoheal, Effect.logFault mu ch] ∧
    evaluate_ai_harmony mu ch =
      (DeployDecision.DEPLOY_HALT, [Effect.autoheal, Effect.logFault mu ch]) ∧
    evaluate_finance_harmony mu ch =
      (TxDecision.TX_HALT, [Effect.autoheal, Effect.logFault mu ch]) ∧
    oilgas_decide mu ch = (false, [Effect.holdChoke]) ∧
    nuclear_decide mu ch = (false, []) ∧
    ground_decide mu ch = (false, []) := by
  have hcond : ¬ (HARMONY_THRESHOLD ≤ mu ∧ ch = true) := by
    intro hc
    simp [evaluate_crypto_harmony, hc] at h
  cases ch with
  | false =>
    simp [evaluate_crypto_harmony, evaluate_ai_harmony, evaluate_finance_harmony,
      oilgas_decide, nuclear_decide, ground_decide, nuclear_go]
  | true =>
    have hmu : ¬ HARMONY_THRESHOLD ≤ mu := fun hle => hcond ⟨hle, rfl⟩
    simp [evaluate_crypto_harmony, evaluate_ai_harmony, evaluate_finance_harmony,
      oilgas_decide, nuclear_decide, ground_decide, nuclear_go, hmu]

/-- C3 witness: at `mu = 0`, `ch = false` the crypto evaluator HALTs and
the amended theorem yields the exact effect behaviour of all six
instantiations. -/
theorem halt_invokes_recovery_and_logger_once_witness :
    (evaluate_crypto_harmony 0 false).2 =
      [Effect.autoheal, Effect.logFault 0 false] ∧
    evaluate_ai_harmony 0 false =
      (DeployDecision.DEPLOY_HALT, [Effect.autoheal, Effect.logFault 0 false]) ∧
    evaluate_finance_harmony 0 false =
      (TxDecision.TX_HALT, [Effect.autoheal, Effect.logFault 0 false]) ∧
    oilgas_decide 0 false = (false, [Effect.holdChoke]) ∧
    nuclear_decide 0 false = (false, []) ∧
    ground_decide 0 false = (false, []) :=
  halt_invokes_recovery_and_logger_once 0 false (by simp [evaluate_crypto_harmony])

theorem zip_take_min (w s : List ℝ) :
    w.zip s =
      (w.take (min w.length s.length)).zip (s.take (min w.length s.length)) := by
  induction w generalizing s with
  | nil => simp
  | cons x w2 ih =>
    cases s with
    | nil => simp
    | cons y s2 =>
      simp only [List.length_cons, Nat.succ_min_succ, List.take_succ_cons,
        List.zip_cons_cons]
      rw [← ih s2]

/-- C4 counterexample: the claim says mismatched weight/score lengths fail
with a ConfigurationError; the code has no error path at all — `zip`
silently truncates.  With weights `[2, 7]` and three scores, `calculate_mu`
returns the same value as for the first two scores alone, i.e. it silently
computes the confidence scalar from a subset of the pairs. -/
theorem mismatched_lengths_silently_truncated :
    calculate_mu [2, 7] [0.5, 0.25, 0.125] = calculate_mu [2, 7] [0.5, 0.25] ∧
    calculate_mu [2, 7, 11] [0.5, 0.25] = calculate_mu [2, 7] [0.5, 0.25] := by
  constructor <;> rfl

/-- C4 amended: whatever the two lengths are, the Aggregator raises no
error and silently computes `mu` from exactly the zipped pairs up to the
shorter length — for every weight list and score list, the result equals
the result on both lists truncated to the shorter length, so surplus
weights and surplus scores alike are ignored. -/
theorem mu_silently_truncates_to_shorter (w s : List ℝ) :
    calculate_mu w s =
      calculate_mu (w.take (min w.length s.length))
        (s.take (min w.length s.length)) := by
  unfold calculate_mu
  rw [← zip_take_min w s]

/-- C5: for every non-empty signal set with scores in `[0,1]` and
non-negative weights, the Aggregator output lies in `(0, 1]`. -/
theorem mu_in_unit_interval (w s : List ℝ) (hw : ∀ x ∈ w, 0 ≤ x)
    (hs : ∀ x ∈ s, 0 ≤ x ∧ x ≤ 1) (hne : s ≠ []) :
    0 < calculate_mu w s ∧ calculate_mu w s ≤ 1 := by
  rw [calculate_mu_eq]
  refine ⟨Real.exp_pos _, ?_⟩
  rw [show (1 : ℝ) = Real.exp 0 from (Real.exp_zero).symm]
  apply Real.exp_le_exp.mpr
  apply list_sum_nonpos
  intro x hx
  obtain ⟨p, hp, rfl⟩ := List.mem_map.mp hx
  obtain ⟨a, b⟩ := p
  exact signalTerm_nonpos (a, b) (hw a (List.of_mem_zip hp).1)

/-- C5 witness: the startup signal set of every instantiation. -/
theorem mu_in_unit_interval_witness :
    0 < calculate_mu [0.30, 0.25, 0.20, 0.15, 0.10] [0.98, 0.97, 1.0, 0.96, 0.99] ∧
    calculate_mu [0.30, 0.25, 0.20, 0.15, 0.10] [0.98, 0.97, 1.0, 0.96, 0.99] ≤ 1 :=
  mu_in_unit_interval [0.30, 0.25, 0.20, 0.15, 0.10] [0.98, 0.97, 1.0, 0.96, 0.99]
    (by norm_num) (by norm_num) (by simp)

theorem fclamp_mono (a b : ℝ) (hab : a ≤ b) :
    fclamp a MIN_SCORE 1 ≤ fclamp b MIN_SCORE 1 :=
  min_le_min (max_le_max hab le_rfl) le_rfl

theorem signalTerm_mono (w a b : ℝ) (hw : 0 ≤ w) (hab : a ≤ b) :
    signalTerm (w, a) ≤ signalTerm (w, b) :=
  mul_le_mul_of_nonneg_left
    (Real.log_le_log (fclamp_pos a) (fclamp_mono a b hab)) hw

theorem zip_map_sum_mono (w : List ℝ) (s1 s2 : List ℝ) (a b : ℝ)
    (hw : ∀ x ∈ w, 0 ≤ x) (hab : a ≤ b) :
    ((w.zip (s1 ++ a :: s2)).map signalTerm).sum ≤
      ((w.zip (s1 ++ b :: s2)).map signalTerm).sum := by
  induction s1 generalizing w with
  | nil =>
    cases w with
    | nil => simp
    | cons w0 w2 =>
      simp only [List.nil_append, List.zip_cons_cons, List.map_cons, List.sum_cons]
      exact add_le_add_right
        (signalTerm_mono w0 a b (hw w0 (List.mem_cons_self w0 w2)) hab) _
  | cons x s1t ih =>
    cases w with
    | nil => simp
    | cons w0 w2 =>
      simp only [List.cons_append, List.zip_cons_cons, List.map_cons, List.sum_cons]
      exact add_le_add_left
        (ih w2 fun y hy => hw y (List.mem_cons_of_mem w0 hy)) _

/-- C6: the Aggregator is monotonically non-decreasing in any single
score: with all weights non-negative, raising the score at one position
from `a` to `b ≥ a` while every other score and all weights stay fixed
never decreases `mu`. -/
theorem mu_monotone_in_score (w s1 s2 : List ℝ) (a b : ℝ)
    (hw : ∀ x ∈ w, 0 ≤ x) (hab : a ≤ b) :
    calculate_mu w (s1 ++ a :: s2) ≤ calculate_mu w (s1 ++ b :: s2) := by
  rw [calculate_mu_eq, calculate_mu_eq]
  exact Real.exp_le_exp.mpr (zip_map_sum_mono w s1 s2 a b hw hab)

/-- C6 witness: raising the middle score of the startup signal set from
`0.5` to `1.0` does not decrease `mu`. -/
theorem mu_monotone_in_score_witness :
    calculate_mu [0.30, 0.25, 0.20, 0.15, 0.10]
        ([0.98, 0.97] ++ (0.5 : ℝ) :: [0.96, 0.99]) ≤
      calculate_mu [0.30, 0.25, 0.20, 0.15, 0.10]
        ([0.98, 0.97] ++ (1.0 : ℝ) :: [0.96, 0.99]) :=
  mu_monotone_in_score [0.30, 0.25, 0.20, 0.15, 0.10] [0.98, 0.97] [0.96, 0.99]
    0.5 1.0 (by norm_num) (by norm_num)

theorem zip_map_sum_congr (w : List ℝ) (s1 s2 : List ℝ) (a b : ℝ)
    (hab : fclamp a MIN_SCORE 1 = fclamp b MIN_SCORE 1) :
    ((w.zip (s1 ++ a :: s2)).map signalTerm).sum =
      ((w.zip (s1 ++ b :: s2)).map signalTerm).sum := by
  induction s1 generalizing w with
  | nil =>
    cases w with
    | nil => simp
    | cons w0 w2 =>
      simp only [List.nil_append, List.zip_cons_cons, List.map_cons, List.sum_cons,
        signalTerm, hab]
  | cons x s1t ih =>
    cases w with
    | nil => simp
    | cons w0 w2 =>
      simp only [List.cons_append, List.zip_cons_cons, List.map_cons, List.sum_cons]
      rw [ih w2]

/-- C7: clamping — for a signal set containing a score `a ≤ 0` at any
position, the Aggregator returns exactly the same (positive, hence
well-defined) result as with that score replaced by `MIN_SCORE = 1e-12`,
for arbitrary weights. -/
theorem mu_clamps_nonpositive_score (w s1 s2 : List ℝ) (a : ℝ) (ha : a ≤ 0) :
    calculate_mu w (s1 ++ a :: s2) = calculate_mu w (s1 ++ MIN_SCORE :: s2) ∧
    0 < calculate_mu w (s1 ++ a :: s2) := by
  have hcl : fclamp a MIN_SCORE 1 = fclamp MIN_SCORE MIN_SCORE 1 := by
    have h1 : max a MIN_SCORE = MIN_SCORE :=
      max_eq_right (le_trans ha (le_of_lt MIN_SCORE_pos))
    have h2 : max MIN_SCORE MIN_SCORE = MIN_SCORE := max_self MIN_SCORE
    rw [fclamp, fclamp, h1, h2]
  constructor
  · rw [calculate_mu_eq, calculate_mu_eq]
    rw [zip_map_sum_congr w s1 s2 a MIN_SCORE hcl]
  · rw [calculate_mu_eq]
    exact Real.exp_pos _

/-- C7 witness: a negative score `-1` behaves exactly like `MIN_SCORE`. -/
theorem mu_clamps_nonpositive_score_witness :
    calculate_mu [1] ([] ++ (-1 : ℝ) :: []) =
      calculate_mu [1] ([] ++ MIN_SCORE :: []) ∧
    0 < calculate_mu [1] ([] ++ (-1 : ℝ) :: []) :=
  mu_clamps_nonpositive_score [1] [] [] (-1) (by norm_num)

/-- C8: identity — when every score is exactly `1.0`, the Aggregator
returns exactly `1.0`, for every non-negative weight vector of positive
total weight. -/
theorem mu_all_ones (w s : List ℝ) (hw : ∀ x ∈ w, 0 ≤ x) (hsum : 0 < w.sum)
    (hs : ∀ x ∈ s, x = 1) : calculate_mu w s = 1 := by
  rw [calculate_mu_eq]
  have hz : (((w.zip s).map signalTerm).sum) = 0 := by
    apply list_sum_eq_zero
    intro x hx
    obtain ⟨p, hp, rfl⟩ := List.mem_map.mp hx
    obtain ⟨u, v⟩ := p
    have hv : v = 1 := hs v (List.of_mem_zip hp).2
    have hone : fclamp (1 : ℝ) MIN_SCORE 1 = 1 := by
      rw [fclamp, max_eq_left (by norm_num [MIN_SCORE]), min_self]
    simp [signalTerm, hv, hone]
  rw [hz, Real.exp_zero]

/-- C8 witness: the startup weight vector with all scores `1.0`. -/
theorem mu_all_ones_witness :
    calculate_mu [0.30, 0.25, 0.20, 0.15, 0.10] [1, 1, 1, 1, 1] = 1 :=
  mu_all_ones [0.30, 0.25, 0.20, 0.15, 0.10] [1, 1, 1, 1, 1]
    (by norm_num) (by norm_num) (by norm_num)

/-- C9: for the empty signal set the accumulation is a sum of zero terms
and the Aggregator returns `mu = exp(0) = 1`. -/
theorem mu_empty_signal_set :
    calculate_mu [] [] = Real.exp 0 ∧ calculate_mu [] [] = 1 :=
  ⟨rfl, by rw [calculate_mu_eq]; simp⟩

/-- C10: implicit behaviour — when every weight is exactly `0`, every
accumulated term is `0 * ln(clamped score) = 0`, so the Aggregator returns
exactly `1.0` no matter how low the scores are, and the confidence
condition `mu >= HARMONY_THRESHOLD` holds on the weights alone. -/
theorem mu_zero_weights (w s : List ℝ) (hw : ∀ x ∈ w, x = 0) :
    calculate_mu w s = 1 ∧ HARMONY_THRESHOLD ≤ calculate_mu w s := by
  have h1 : calculate_mu w s = 1 := by
    rw [calculate_mu_eq]
    have hz : (((w.zip s).map signalTerm).sum) = 0 := by
      apply list_sum_eq_zero
      intro x hx
      obtain ⟨p, hp, rfl⟩ := List.mem_map.mp hx
      obtain ⟨u, v⟩ := p
      have hu : u = 0 := hw u (List.of_mem_zip hp).1
      simp [signalTerm, hu]
    rw [hz, Real.exp_zero]
  exact ⟨h1, by rw [h1]; norm_num [HARMONY_THRESHOLD]⟩

/-- C10 witness: zero weights over abysmal scores still yield `mu = 1`,
which clears the threshold. -/
theorem mu_zero_weights_witness :
    calculate_mu [0, 0] [0.001, 0.002] = 1 ∧
    HARMONY_THRESHOLD ≤ calculate_mu [0, 0] [0.001, 0.002] :=
  mu_zero_weights [0, 0] [0.001, 0.002] (by norm_num)

end
